import Mathlib

/-!
Verification of the numerical core of mom6-tools against its specification.

The two source files embedded here are mom6_tools/moc.py (the overturning
streamfunction accumulator MOCpsi and the extremum locator findExtrema) and
mom6_tools/stats.py (the weighted statistics reducers and their input
validation).  Multi-dimensional numpy/xarray arrays are modelled as nested
lists of rationals; exact rational arithmetic replaces floating point for
the pure sums/differences, and a small IEEE-style value type FVal (finite,
NaN, plus/minus infinity) models the float semantics where NaN propagation
and division by zero matter.
-/

set_option autoImplicit false

namespace Mom6Tools

/-- Pointwise subtraction of two horizontal vectors, the vectorised
numpy expression psi[k,:] - s where s is a zonal sum. -/
def vecSub (a b : List ℚ) : List ℚ := List.zipWith (fun x y => x - y) a b

/-- Zonal (last-axis) sum of one depth layer: vh[k-1].sum(axis=-1) when no
mask is given, (vmsk*vh[k-1]).sum(axis=-1) when the mask is given
(moc.py lines 232-233).  A layer is a list of rows; the result has one
entry per row. -/
def zonalSum (vmsk : Option (List (List ℚ))) (layer : List (List ℚ)) : List ℚ :=
  match vmsk with
  | none => layer.map List.sum
  | some m => List.zipWith (fun mrow row => (List.zipWith (fun x y => x * y) mrow row).sum) m layer

/-- The descending-k loop of MOCpsi (moc.py lines 231-233): psi has one more
depth entry than the list of layer sums, the bottom entry is the given
all-zero row, and each entry satisfies psi[k-1] = psi[k] - s[k-1]. -/
def scanPsi (zero : List ℚ) : List (List ℚ) → List (List ℚ)
  | [] => [zero]
  | s :: rest => vecSub ((scanPsi zero rest).headD zero) s :: scanPsi zero rest

/-- MOCpsi for a rank-3 transport array (moc.py lines 226-233).  The source
allocates psi = numpy.zeros(shape[:-1]) with shape[-3] += 1, so the output
is rank 2: depth interfaces by y, the x axis having been summed away.  The
number of rows J is vh.shape[-2], the row count of the first layer. -/
def MOCpsi (vh : List (List (List ℚ))) (vmsk : Option (List (List ℚ))) : List (List ℚ) :=
  scanPsi (List.replicate (vh.headD []).length 0) (vh.map (zonalSum vmsk))

/-- MOCpsi for a rank-4 transport array (moc.py lines 234-238): the same
descending scan is run for each leading (ensemble) index n, with the row
count J taken from the global shape. -/
def MOCpsi4 (vh : List (List (List (List ℚ)))) (vmsk : Option (List (List ℚ))) :
    List (List (List ℚ)) :=
  vh.map (fun slice =>
    scanPsi (List.replicate ((vh.headD []).headD []).length 0) (slice.map (zonalSum vmsk)))

/-- Modelled from the spec: reference implementation of the streamfunction
accumulation that reverses the depth-layer axis, takes a forward cumulative
sum of the negated zonal layer sums (prepending a zero bottom interface),
and reverses back.  Used only to compare against MOCpsi. -/
def MOCpsiRefImpl (vh : List (List (List ℚ))) (vmsk : Option (List (List ℚ))) :
    List (List ℚ) :=
  (List.scanl vecSub (List.replicate (vh.headD []).length 0)
    ((vh.map (zonalSum vmsk)).reverse)).reverse

/-- Shape of a rank-2 nested-list array, mirroring numpy array.shape. -/
def shape2 (a : List (List ℚ)) : List Nat := [a.length, (a.headD []).length]

/-- Shape of a rank-3 nested-list array, mirroring numpy array.shape. -/
def shape3 (a : List (List (List ℚ))) : List Nat :=
  [a.length, (a.headD []).length, ((a.headD []).headD []).length]

/-- Row-major flattened values of psi kept by the boolean filter
(y>=min_lat) & (y<=max_lat) & (z<-min_depth) in findExtrema
(moc.py line 278). -/
def filteredVals (y z psi : List (List ℚ)) (minLat maxLat minDepth : ℚ) : List ℚ :=
  ((y.flatten.zip (z.flatten.zip psi.flatten)).filter
    (fun t => decide (minLat ≤ t.1) && decide (t.1 ≤ maxLat) && decide (t.2.1 < -minDepth))).map
    (fun t => t.2.2)

/-- Stage one of findExtrema: psiMax = mult*numpy.amax(mult * filtered psi)
(moc.py line 278); none when the filtered subset is empty. -/
def stageOneExtremum (y z psi : List (List ℚ)) (minLat maxLat minDepth mult : ℚ) : Option ℚ :=
  (((filteredVals y z psi minLat maxLat minDepth).map (fun v => mult * v)).max?).map
    (fun m => mult * m)

/-- Index of the first occurrence of the minimum value, the documented
semantics of numpy.argmin on a flattened array. -/
def argmin (l : List ℚ) : Option Nat := l.min?.map (fun m => l.indexOf m)

/-- findExtrema (moc.py lines 277-286): stage one reduces over the filtered
view, stage two takes idx = argmin(abs(psi - psiMax)) over the full
unrestricted array, unravels idx in row-major order against the row width,
and reports that location together with psi[j,i] (the value returned when
plot=False). -/
def findExtrema (y z psi : List (List ℚ)) (minLat maxLat minDepth mult : ℚ) :
    Option (Nat × Nat × ℚ) :=
  match stageOneExtremum y z psi minLat maxLat minDepth mult with
  | none => none
  | some psiMax =>
    match argmin (psi.flatten.map (fun v => |v - psiMax|)) with
    | none => none
    | some idx =>
      let w := (psi.headD []).length
      some (idx / w, idx % w, (psi.getD (idx / w) []).getD (idx % w) 0)

/-- IEEE-style scalar value: an exact finite rational, NaN, or a signed
infinity.  Rounding is not modelled; NaN propagation and division by zero
follow IEEE 754 (signed zeros are not modelled). -/
inductive FVal where
  | fin : ℚ → FVal
  | nan : FVal
  | inf : FVal
  | ninf : FVal
deriving DecidableEq

/-- IEEE-style addition on FVal. -/
def FVal.add : FVal → FVal → FVal
  | nan, _ => nan
  | _, nan => nan
  | inf, ninf => nan
  | ninf, inf => nan
  | inf, _ => inf
  | _, inf => inf
  | ninf, _ => ninf
  | _, ninf => ninf
  | fin a, fin b => fin (a + b)

/-- IEEE-style multiplication on FVal. -/
def FVal.mul : FVal → FVal → FVal
  | nan, _ => nan
  | _, nan => nan
  | fin a, fin b => fin (a * b)
  | inf, inf => inf
  | inf, ninf => ninf
  | ninf, inf => ninf
  | ninf, ninf => inf
  | inf, fin b => if b = 0 then nan else if 0 < b then inf else ninf
  | fin a, inf => if a = 0 then nan else if 0 < a then inf else ninf
  | ninf, fin b => if b = 0 then nan else if 0 < b then ninf else inf
  | fin a, ninf => if a = 0 then nan else if 0 < a then ninf else inf

/-- IEEE-style division on FVal: 0/0 is NaN, nonzero/0 is a signed
infinity, finite/infinite is 0, infinite/infinite is NaN. -/
def FVal.div : FVal → FVal → FVal
  | nan, _ => nan
  | _, nan => nan
  | inf, inf => nan
  | inf, ninf => nan
  | ninf, inf => nan
  | ninf, ninf => nan
  | fin _, inf => fin 0
  | fin _, ninf => fin 0
  | inf, fin b => if 0 ≤ b then inf else ninf
  | ninf, fin b => if 0 ≤ b then ninf else inf
  | fin a, fin b =>
    if b = 0 then (if a = 0 then nan else if 0 < a then inf else ninf)
    else fin (a / b)

/-- Sum of a list of FVal values, the .sum(dim=dims) reduction of one
horizontal group. -/
def fsum (l : List FVal) : FVal := l.foldl FVal.add (FVal.fin 0)

/-- Values of a group with the NaN entries dropped, as done by the
skipna=True default of the xarray reductions. -/
def dropNan (l : List FVal) : List FVal := l.filter (fun x => decide (x ≠ FVal.nan))

/-- Comparison on non-NaN FVal values: ninf below every finite value,
inf above every finite value.  (Its value on NaN arguments is never used:
NaNs are dropped before comparing.) -/
def FVal.leB : FVal → FVal → Bool
  | nan, _ => true
  | _, nan => false
  | ninf, _ => true
  | _, ninf => false
  | _, inf => true
  | inf, _ => false
  | fin a, fin b => decide (a ≤ b)

/-- Binary minimum on FVal via leB. -/
def fmin (a b : FVal) : FVal := if FVal.leB a b then a else b

/-- Binary maximum on FVal via leB. -/
def fmax (a b : FVal) : FVal := if FVal.leB a b then b else a

/-- xarray .min(dim=dims) over one group: the minimum of the non-NaN
values, NaN when every value is NaN. -/
def xmin (l : List FVal) : FVal :=
  match dropNan l with
  | [] => FVal.nan
  | x :: xs => xs.foldl fmin x

/-- xarray .max(dim=dims) over one group: the maximum of the non-NaN
values, NaN when every value is NaN. -/
def xmax (l : List FVal) : FVal :=
  match dropNan l with
  | [] => FVal.nan
  | x :: xs => xs.foldl fmax x

/-- xarray .mean(dim=dims) over one group with the skipna=True default:
sum of the non-NaN values divided by their count. -/
def xmean (l : List FVal) : FVal :=
  FVal.div (fsum (dropNan l)) (FVal.fin (dropNan l).length)

/-- min_da (stats.py lines 214-231) reduced to one horizontal group: the
plain unweighted minimum.  The check_dims call at its head is modelled
separately by check_dims below. -/
def min_da (da : List FVal) : FVal := xmin da

/-- max_da (stats.py lines 233-250) reduced to one horizontal group: the
plain unweighted maximum. -/
def max_da (da : List FVal) : FVal := xmax da

/-- mean_da (stats.py lines 252-282) reduced to one horizontal group.
With weights it is (da*weights).sum(dims) / weights_sum, where weights_sum
defaults to weights.sum(dims); without weights it is the plain skipna
mean.  The function is total: division never raises. -/
def mean_da (da : List FVal) (weights : Option (List FVal)) (weightsSum : Option FVal) : FVal :=
  match weights with
  | some w =>
    FVal.div (fsum (List.zipWith FVal.mul da w))
      (match weightsSum with
       | some s => s
       | none => fsum w)
  | none => xmean da

/-- xarray .where(cond) over one group: keep the value where the condition
holds, NaN elsewhere. -/
def xwhere (da : List FVal) (cond : List Bool) : List FVal :=
  List.zipWith (fun v c => if c then v else FVal.nan) da cond

/-- The per-region minimum computed by myStats_da (stats.py lines 431-435):
the field itself is first masked to the region, da_reg =
da.where(basins.sel(region=reg).values == 1.0), and min_da is applied to
the masked field. -/
def myStats_da_region_min (da : List FVal) (regionMask : List ℚ) : FVal :=
  min_da (xwhere da (regionMask.map (fun m => decide (m = 1))))

/-- The per-region maximum computed by myStats_da (stats.py lines 431-436),
mirroring myStats_da_region_min. -/
def myStats_da_region_max (da : List FVal) (regionMask : List ℚ) : FVal :=
  max_da (xwhere da (regionMask.map (fun m => decide (m = 1))))

/-- check_dims (stats.py lines 355-370): raise unless both entries of dims
are among the array dimensions.  The error strings are those of the
source. -/
def check_dims (daDims : List String) (dims : String × String) : Except String Unit :=
  if dims.1 ∉ daDims then
    Except.error (r"DataArray does not have dimensions given by dims[0]")
  else if dims.2 ∉ daDims then
    Except.error (r"DataArray does not have dimensions given by dims[1]")
  else Except.ok ()

/-- Decides whether the first character list is an initial segment of the
second. -/
def startsWithChars : List Char → List Char → Bool
  | [], _ => true
  | _ :: _, [] => false
  | a :: as, b :: bs => decide (a = b) && startsWithChars as bs

/-- Decides whether the first character list occurs contiguously anywhere
inside the second; used to ask whether an error message mentions an axis
name. -/
def containsChars (needle : List Char) : List Char → Bool
  | [] => needle.isEmpty
  | b :: bs => startsWithChars needle (b :: bs) || containsChars needle bs

/-- Validation prefix of HorizontalMeanRmse_da for a region-partitioned
call with weights provided (stats.py lines 69 and 89-98): check_dims on
var, then the region coordinate, then the weights rank, then the basins
rank, each failing with the source's error string; the reductions run only
after all four checks pass. -/
def HorizontalMeanRmse_da_check (varDims : List String) (dims : String × String)
    (weightsRank : Nat) (basinsCoords : List String) (basinsRank : Nat) : Except String Unit :=
  match check_dims varDims dims with
  | Except.error e => Except.error e
  | Except.ok _ =>
    if (r"region") ∉ basinsCoords then
      Except.error (r"Regions does not have coordinate region. Please use genBasinMasks to construct the basins mask.")
    else if weightsRank ≠ 3 then
      Except.error (r"If basins is provided, weights must be a 3D array.")
    else if basinsRank ≠ 3 then
      Except.error (r"Regions must be a 3D array.")
    else Except.ok ()

/-- Validation prefix of HorizontalMeanDiff_da for a region-partitioned
call with weights provided (stats.py lines 160 and 179-186); the checks
and error strings are identical to the Rmse variant. -/
def HorizontalMeanDiff_da_check (varDims : List String) (dims : String × String)
    (weightsRank : Nat) (basinsCoords : List String) (basinsRank : Nat) : Except String Unit :=
  match check_dims varDims dims with
  | Except.error e => Except.error e
  | Except.ok _ =>
    if (r"region") ∉ basinsCoords then
      Except.error (r"Regions does not have coordinate region. Please use genBasinMasks to construct the basins mask.")
    else if weightsRank ≠ 3 then
      Except.error (r"If basins is provided, weights must be a 3D array.")
    else if basinsRank ≠ 3 then
      Except.error (r"Regions must be a 3D array.")
    else Except.ok ()

/-! Helper lemmas about the streamfunction scan. -/

theorem headD_of_ne_nil {α : Type _} (l : List α) (d d' : α) (h : l ≠ []) :
    l.headD d = l.headD d' := by
  cases l with
  | nil => exact absurd rfl h
  | cons a t => rfl

theorem headD_eq_getD_zero {α : Type _} (l : List α) (d d' : α) (h : l ≠ []) :
    l.headD d = l.getD 0 d' := by
  cases l with
  | nil => exact absurd rfl h
  | cons a t => rfl

theorem getLastD_of_ne_nil {α : Type _} (l : List α) (h : l ≠ []) (d d' : α) :
    l.getLastD d = l.getLastD d' := by
  induction l with
  | nil => exact absurd rfl h
  | cons a t ih =>
    cases t with
    | nil => rfl
    | cons b u => simp only [List.getLastD_cons]

theorem getLastD_eq_reverse_headD {α : Type _} (l : List α) (d : α) :
    l.getLastD d = l.reverse.headD d := by
  rw [List.getLastD_eq_getLast?, List.headD_eq_head?, List.head?_reverse]

theorem scanPsi_ne_nil (zero : List ℚ) (s : List (List ℚ)) : scanPsi zero s ≠ [] := by
  cases s <;> simp [scanPsi]

theorem scanPsi_length (zero : List ℚ) (s : List (List ℚ)) :
    (scanPsi zero s).length = s.length + 1 := by
  induction s with
  | nil => rfl
  | cons a t ih => simp [scanPsi, ih]

theorem scanPsi_getLastD (zero : List ℚ) (s : List (List ℚ)) :
    (scanPsi zero s).getLastD [] = zero := by
  induction s with
  | nil => rfl
  | cons a t ih =>
    simp only [scanPsi, List.getLastD_cons]
    rw [getLastD_of_ne_nil (scanPsi zero t) (scanPsi_ne_nil zero t)
      (vecSub ((scanPsi zero t).headD zero) a) []]
    exact ih

theorem scanPsi_getD (zero : List ℚ) (s : List (List ℚ)) (k : Nat) (hk : k < s.length) :
    (scanPsi zero s).getD k [] =
      vecSub ((scanPsi zero s).getD (k + 1) []) (s.getD k []) := by
  induction s generalizing k with
  | nil => simp at hk
  | cons a t ih =>
    cases k with
    | zero =>
      simp only [scanPsi, List.getD_cons_zero, List.getD_cons_succ]
      rw [headD_eq_getD_zero _ zero [] (scanPsi_ne_nil zero t)]
    | succ m =>
      simp only [scanPsi, List.getD_cons_succ]
      exact ih m (by simpa using hk)

theorem zonalSum_nil (vmsk : Option (List (List ℚ))) : zonalSum vmsk [] = [] := by
  cases vmsk <;> simp [zonalSum]

theorem getD_map_zonal (vmsk : Option (List (List ℚ))) (vh : List (List (List ℚ))) (k : Nat) :
    (vh.map (zonalSum vmsk)).getD k [] = zonalSum vmsk (vh.getD k []) := by
  have h := List.getD_map vh [] (n := k) (zonalSum vmsk)
  rwa [zonalSum_nil] at h

theorem scanl_ne_nil {α β : Type _} (f : β → α → β) (z : β) (l : List α) :
    List.scanl f z l ≠ [] := by
  cases l <;> simp [List.scanl]

theorem scanl_concat {α β : Type _} (f : β → α → β) (z : β) (l : List α) (a : α) :
    List.scanl f z (l ++ [a]) =
      List.scanl f z l ++ [f ((List.scanl f z l).getLastD z) a] := by
  induction l generalizing z with
  | nil => simp [List.scanl]
  | cons b l' ih =>
    rw [List.cons_append, List.scanl_cons, ih (f z b), List.scanl_cons]
    rw [List.singleton_append, List.singleton_append, List.getLastD_cons]
    rw [getLastD_of_ne_nil _ (scanl_ne_nil f (f z b) l') z (f z b)]
    simp [List.cons_append]

theorem scanPsi_eq_scanl_reverse (zero : List ℚ) (s : List (List ℚ)) :
    scanPsi zero s = (List.scanl vecSub zero s.reverse).reverse := by
  induction s with
  | nil => rfl
  | cons a t ih =>
    rw [List.reverse_cons, scanl_concat, List.reverse_append]
    simp only [List.reverse_cons, List.reverse_nil, List.nil_append, List.singleton_append]
    rw [← ih]
    simp only [scanPsi]
    congr 1
    rw [getLastD_eq_reverse_headD, ih]

theorem scanPsi_headD_length (zero : List ℚ) (s : List (List ℚ))
    (hs : ∀ v ∈ s, v.length = zero.length) :
    ((scanPsi zero s).headD []).length = zero.length := by
  induction s with
  | nil => rfl
  | cons a t ih =>
    simp only [scanPsi, List.headD_cons, vecSub, List.length_zipWith]
    rw [headD_of_ne_nil (scanPsi zero t) zero [] (scanPsi_ne_nil zero t)]
    rw [ih (fun v hv => hs v (List.mem_cons_of_mem a hv)),
      hs a (List.mem_cons_self a t), Nat.min_self]

theorem zonalSum_length (vmsk : Option (List (List ℚ))) (layer : List (List ℚ))
    (J : Nat) (hl : layer.length = J) (hm : ∀ m, vmsk = some m → m.length = J) :
    (zonalSum vmsk layer).length = J := by
  cases vmsk with
  | none => simpa [zonalSum] using hl
  | some m =>
    simp only [zonalSum, List.length_zipWith]
    rw [hl, hm m rfl, Nat.min_self]

/-! Claim theorems for the streamfunction accumulator. -/

/-- C1: the streamfunction returned by MOCpsi has an exactly-zero bottom
interface (last depth index), and every shallower interface k-1 equals the
interface k below it minus the zonal (last-axis, mask-multiplied) sum of
the transport at layer k-1; for the 3-layer all-ones 2x2 transport with no
mask the interface values from bottom to top are 0, -2, -4, -6. -/
theorem MOCpsi_bottom_zero_and_recurrence :
    (∀ (vh : List (List (List ℚ))) (vmsk : Option (List (List ℚ))),
      (MOCpsi vh vmsk).getLastD [] = List.replicate (vh.headD []).length 0
      ∧ ∀ k, k < vh.length →
          (MOCpsi vh vmsk).getD k [] =
            vecSub ((MOCpsi vh vmsk).getD (k + 1) []) (zonalSum vmsk (vh.getD k [])))
    ∧ MOCpsi (List.replicate 3 (List.replicate 2 (List.replicate 2 (1 : ℚ)))) none
        = [[-6, -6], [-4, -4], [-2, -2], [0, 0]] := by
  constructor
  · intro vh vmsk
    constructor
    · exact scanPsi_getLastD _ _
    · intro k hk
      have hk' : k < (vh.map (zonalSum vmsk)).length := by simpa using hk
      have h := scanPsi_getD (List.replicate (vh.headD []).length 0)
        (vh.map (zonalSum vmsk)) k hk'
      rw [getD_map_zonal] at h
      exact h
  · norm_num [MOCpsi, scanPsi, zonalSum, vecSub, List.replicate]

/-- Witness for C1 at the concrete 3-layer all-ones input and k = 0. -/
theorem MOCpsi_bottom_zero_and_recurrence_witness :
    (MOCpsi (List.replicate 3 (List.replicate 2 (List.replicate 2 (1 : ℚ)))) none).getD 0 [] =
      vecSub
        ((MOCpsi (List.replicate 3 (List.replicate 2 (List.replicate 2 (1 : ℚ)))) none).getD 1 [])
        (zonalSum none
          ((List.replicate 3 (List.replicate 2 (List.replicate 2 (1 : ℚ)))).getD 0 [])) :=
  (MOCpsi_bottom_zero_and_recurrence.1
    (List.replicate 3 (List.replicate 2 (List.replicate 2 (1 : ℚ)))) none).2 0 (by decide)

/-- C2 counterexample: the claim says an input of shape [3, 2, 2] yields an
output of shape [4, 2, 2]; the code allocates psi = zeros(shape[:-1]), so
the output for that input has shape [4, 2] (the x axis has been summed
away and the rank drops by one). -/
theorem MOCpsi_shape_counterexample :
    shape2 (MOCpsi (List.replicate 3 (List.replicate 2 (List.replicate 2 (1 : ℚ)))) none)
        = [4, 2]
    ∧ shape2 (MOCpsi (List.replicate 3 (List.replicate 2 (List.replicate 2 (1 : ℚ)))) none)
        ≠ [4, 2, 2] := by
  constructor <;> decide

/-- C2 amended: for a rank-3 transport of shape [K, J, I] the output of
MOCpsi has shape [K+1, J] (depth-layer axis lengthened by one, last axis
removed), and for a rank-4 transport of shape [N, K, J, I] the output of
MOCpsi4 has shape [N, K+1, J]; in particular a [3, 2, 2] input yields a
[4, 2] output. -/
theorem MOCpsi_shape (vh : List (List (List ℚ))) (vmsk : Option (List (List ℚ)))
    (hrect : ∀ layer ∈ vh, layer.length = (vh.headD []).length)
    (hmsk : ∀ m, vmsk = some m → m.length = (vh.headD []).length) :
    shape2 (MOCpsi vh vmsk) = [vh.length + 1, (vh.headD []).length]
    ∧ ∀ (vh4 : List (List (List (List ℚ)))), vh4 ≠ [] →
        (∀ layer ∈ vh4.headD [], layer.length = ((vh4.headD []).headD []).length) →
        (∀ m, vmsk = some m → m.length = ((vh4.headD []).headD []).length) →
        shape3 (MOCpsi4 vh4 vmsk) =
          [vh4.length, (vh4.headD []).length + 1, ((vh4.headD []).headD []).length] := by
  constructor
  · have hrows : ∀ v ∈ vh.map (zonalSum vmsk),
        v.length = (List.replicate (vh.headD []).length (0 : ℚ)).length := by
      intro v hv
      rcases List.mem_map.mp hv with ⟨layer, hmem, rfl⟩
      rw [List.length_replicate]
      exact zonalSum_length vmsk layer _ (hrect layer hmem) hmsk
    simp only [shape2, MOCpsi, scanPsi_length, List.length_map]
    rw [scanPsi_headD_length _ _ hrows, List.length_replicate]
  · intro vh4 hne hlay hm4
    cases vh4 with
    | nil => exact absurd rfl hne
    | cons c t =>
      simp only [List.headD_cons] at hlay hm4 ⊢
      have hrows : ∀ v ∈ c.map (zonalSum vmsk),
          v.length = (List.replicate ((c.headD []).length) (0 : ℚ)).length := by
        intro v hv
        rcases List.mem_map.mp hv with ⟨layer, hmem, rfl⟩
        rw [List.length_replicate]
        exact zonalSum_length vmsk layer _ (hlay layer hmem) hm4
      simp only [shape3, MOCpsi4, List.map_cons, List.length_cons, List.length_map,
        List.headD_cons, scanPsi_length]
      rw [scanPsi_headD_length _ _ hrows, List.length_replicate]

/-- Witness for C2's amended claim at the concrete [3, 2, 2] all-ones
input, and at a rank-4 input with one ensemble member. -/
theorem MOCpsi_shape_witness :
    shape2 (MOCpsi (List.replicate 3 (List.replicate 2 (List.replicate 2 (1 : ℚ)))) none)
        = [4, 2]
    ∧ shape3 (MOCpsi4 [List.replicate 3 (List.replicate 2 (List.replicate 2 (1 : ℚ)))] none)
        = [1, 4, 2] :=
  ⟨(MOCpsi_shape (List.replicate 3 (List.replicate 2 (List.replicate 2 (1 : ℚ)))) none
      (by decide) (fun m h => nomatch h)).1,
   (MOCpsi_shape (List.replicate 3 (List.replicate 2 (List.replicate 2 (1 : ℚ)))) none
      (by decide) (fun m h => nomatch h)).2
      [List.replicate 3 (List.replicate 2 (List.replicate 2 (1 : ℚ)))]
      (by simp) (by decide) (fun m h => nomatch h)⟩

/-- C3: the layer-by-layer descending scan of MOCpsi coincides exactly
with the reference implementation that reverses the depth-layer axis,
forward-cumulative-sums the negated zonal layer sums with a prepended zero
bottom interface, and reverses back. -/
theorem MOCpsi_eq_reference (vh : List (List (List ℚ))) (vmsk : Option (List (List ℚ))) :
    MOCpsi vh vmsk = MOCpsiRefImpl vh vmsk :=
  scanPsi_eq_scanl_reverse _ _

/-- C4: for a rank-4 transport, slicing the MOCpsi4 result at ensemble
index n equals MOCpsi applied to the rank-3 slice with the same mask: the
scan is repeated independently per ensemble member. -/
theorem MOCpsi4_slice_eq (vh : List (List (List (List ℚ))))
    (vmsk : Option (List (List ℚ))) (n : Nat) (hn : n < vh.length)
    (hJ : ((vh.getD n []).headD []).length = ((vh.headD []).headD []).length) :
    (MOCpsi4 vh vmsk).getD n [] = MOCpsi (vh.getD n []) vmsk := by
  have hn' : n < (MOCpsi4 vh vmsk).length := by simp [MOCpsi4, hn]
  rw [List.getD_eq_getElem _ _ hn']
  have hmap : (MOCpsi4 vh vmsk)[n] =
      scanPsi (List.replicate ((vh.headD []).headD []).length 0)
        ((vh[n]).map (zonalSum vmsk)) := by
    simp [MOCpsi4]
  rw [hmap, MOCpsi, List.getD_eq_getElem _ _ hn]
  rw [List.getD_eq_getElem _ _ hn] at hJ
  rw [hJ]

/-- Witness for C4 at a concrete rank-4 input with one ensemble member. -/
theorem MOCpsi4_slice_eq_witness :
    (MOCpsi4 [List.replicate 3 (List.replicate 2 (List.replicate 2 (1 : ℚ)))] none).getD 0 [] =
      MOCpsi (([List.replicate 3 (List.replicate 2 (List.replicate 2 (1 : ℚ)))]).getD 0 []) none :=
  MOCpsi4_slice_eq [List.replicate 3 (List.replicate 2 (List.replicate 2 (1 : ℚ)))] none 0
    (by decide) (by decide)

/-! Helper lemmas for the extremum locator. -/

theorem min?_spec {l : List ℚ} {m : ℚ} (h : l.min? = some m) :
    m ∈ l ∧ ∀ b ∈ l, m ≤ b :=
  ⟨List.min?_mem (fun a b => min_choice a b) h,
   fun b hb => (List.le_min?_iff (fun _ _ _ => le_min_iff) h).mp (le_refl m) b hb⟩

theorem max?_spec {l : List ℚ} {m : ℚ} (h : l.max? = some m) :
    m ∈ l ∧ ∀ b ∈ l, b ≤ m :=
  ⟨List.max?_mem (fun a b => max_choice a b) h,
   fun b hb => (List.max?_le_iff (fun _ _ _ => max_le_iff) h).mp (le_refl m) b hb⟩

theorem getElem_ne_of_lt_indexOf {l : List ℚ} {a : ℚ} {k : Nat}
    (hk : k < l.indexOf a) (hlen : k < l.length) : l[k] ≠ a := by
  induction l generalizing k with
  | nil => simp at hlen
  | cons c t ih =>
    rw [List.indexOf_cons] at hk
    cases hbeq : (c == a) with
    | true => rw [hbeq] at hk; simp at hk
    | false =>
      rw [hbeq] at hk
      simp only [cond] at hk
      cases k with
      | zero => simpa using beq_eq_false_iff_ne.mp hbeq
      | succ m =>
        simp only [List.getElem_cons_succ]
        exact ih (by omega) (by simpa using hlen)

theorem min?_abs_eq_zero {l : List ℚ} {t : ℚ} (ht : t ∈ l) :
    (l.map (fun v => |v - t|)).min? = some 0 := by
  cases habs : (l.map (fun v => |v - t|)).min? with
  | none =>
    rw [List.min?_eq_none_iff, List.map_eq_nil_iff] at habs
    subst habs
    simp at ht
  | some m =>
    rcases min?_spec habs with ⟨hmem, hle⟩
    have h0 : (0 : ℚ) ∈ l.map (fun v => |v - t|) :=
      List.mem_map.mpr ⟨t, ht, by simp⟩
    have h1 : m ≤ 0 := hle 0 h0
    rcases List.mem_map.mp hmem with ⟨v, hv, rfl⟩
    exact congrArg some (le_antisymm h1 (abs_nonneg _))

theorem filteredVals_unrestricted (y z psi : List (List ℚ))
    (hy : ∀ v ∈ y.flatten, -90 ≤ v ∧ v ≤ 90)
    (hz : ∀ v ∈ z.flatten, v < 0)
    (hylen : y.flatten.length = psi.flatten.length)
    (hzlen : z.flatten.length = psi.flatten.length) :
    filteredVals y z psi (-90) 90 0 = psi.flatten := by
  unfold filteredVals
  have hfil : (y.flatten.zip (z.flatten.zip psi.flatten)).filter
      (fun t => decide ((-90 : ℚ) ≤ t.1) && decide (t.1 ≤ 90) && decide (t.2.1 < -0)) =
      y.flatten.zip (z.flatten.zip psi.flatten) := by
    apply List.filter_eq_self.mpr
    intro t htmem
    obtain ⟨a, b, c⟩ := t
    have h1 := List.of_mem_zip htmem
    have h2 := List.of_mem_zip h1.2
    rcases hy a h1.1 with ⟨hya, hya'⟩
    have hzb := hz b h2.1
    simp only [Bool.and_eq_true, decide_eq_true_eq]
    refine ⟨⟨hya, hya'⟩, ?_⟩
    simpa using hzb
  rw [hfil]
  have hlen2 : (z.flatten.zip psi.flatten).length ≤ y.flatten.length := by
    rw [List.length_zip, hzlen, hylen, Nat.min_self]
  have hcomp : (fun t : ℚ × ℚ × ℚ => t.2.2) = (Prod.snd ∘ Prod.snd) := rfl
  rw [hcomp, ← List.map_map, List.map_snd_zip _ _ hlen2,
    List.map_snd_zip _ _ (le_of_eq hzlen.symm)]

theorem width_pos_of_flatten_ne_nil (psi : List (List ℚ))
    (hrect : ∀ r ∈ psi, r.length = (psi.headD []).length)
    (hne : psi.flatten ≠ []) : 0 < (psi.headD []).length := by
  rcases Nat.eq_zero_or_pos (psi.headD []).length with h0 | hpos
  · exfalso
    apply hne
    apply List.eq_nil_of_length_eq_zero
    rw [List.length_flatten]
    apply List.sum_eq_zero
    intro x hx
    rcases List.mem_map.mp hx with ⟨r, hr, rfl⟩
    rw [hrect r hr, h0]
  · exact hpos

theorem getD_flatten_rect (psi : List (List ℚ)) (w : Nat) (hw : 0 < w)
    (hrect : ∀ r ∈ psi, r.length = w) (idx : Nat) (hidx : idx < psi.flatten.length) :
    (psi.getD (idx / w) []).getD (idx % w) 0 = psi.flatten.getD idx 0 := by
  induction psi generalizing idx with
  | nil => simp at hidx
  | cons r rest ih =>
    have hr : r.length = w := hrect r (List.mem_cons_self r rest)
    rcases Nat.lt_or_ge idx w with hlt | hge
    · rw [Nat.div_eq_of_lt hlt, Nat.mod_eq_of_lt hlt, List.getD_cons_zero,
        List.flatten_cons, List.getD_append _ _ _ _ (by rw [hr]; exact hlt)]
    · have hsub : idx - w < rest.flatten.length := by
        have : idx < r.length + rest.flatten.length := by
          simpa [List.flatten_cons] using hidx
        omega
      have hidx' : idx - w + w = idx := Nat.sub_add_cancel hge
      rw [← hidx', Nat.add_div_right _ hw, Nat.add_mod_right, List.getD_cons_succ,
        List.flatten_cons, List.getD_append_right _ _ _ _ (by omega)]
      rw [hr]
      have harg : idx - w + w - w = idx - w := by omega
      rw [harg]
      exact ih (fun x hx => hrect x (List.mem_cons_of_mem r hx)) (idx - w) hsub

theorem foldl_max_map_neg (t : List ℚ) : ∀ a : ℚ,
    (t.map (fun v => -v)).foldl max (-a) = -(t.foldl min a) := by
  induction t with
  | nil => intro a; rfl
  | cons b u ih =>
    intro a
    simp only [List.map_cons, List.foldl_cons]
    rw [max_neg_neg, ih]

theorem max?_map_neg (l : List ℚ) :
    (l.map (fun v => -v)).max? = l.min?.map (fun v => -v) := by
  cases l with
  | nil => rfl
  | cons a t =>
    show some ((t.map (fun v => -v)).foldl max (-a)) = (some (t.foldl min a)).map (fun v => -v)
    rw [foldl_max_map_neg, Option.map_some']

theorem findExtrema_value_of_mem (y z psi : List (List ℚ))
    (minLat maxLat minDepth mult t : ℚ)
    (hrect : ∀ r ∈ psi, r.length = (psi.headD []).length)
    (hstage : stageOneExtremum y z psi minLat maxLat minDepth mult = some t)
    (ht : t ∈ psi.flatten) :
    (findExtrema y z psi minLat maxLat minDepth mult).map (fun p => p.2.2) = some t := by
  have hne : psi.flatten ≠ [] := List.ne_nil_of_mem ht
  have hw : 0 < (psi.headD []).length := width_pos_of_flatten_ne_nil psi hrect hne
  have habs := min?_abs_eq_zero (t := t) ht
  have hargmin : argmin (psi.flatten.map (fun v => |v - t|)) =
      some ((psi.flatten.map (fun v => |v - t|)).indexOf 0) := by
    rw [argmin, habs, Option.map_some']
  have h0mem : (0 : ℚ) ∈ psi.flatten.map (fun v => |v - t|) :=
    List.mem_map.mpr ⟨t, ht, by simp⟩
  have hidxlt : (psi.flatten.map (fun v => |v - t|)).indexOf 0 <
      (psi.flatten.map (fun v => |v - t|)).length := List.indexOf_lt_length.mpr h0mem
  have hidx2 : (psi.flatten.map (fun v => |v - t|)).indexOf 0 < psi.flatten.length := by
    rw [List.length_map] at hidxlt
    exact hidxlt
  have hval : psi.flatten[(psi.flatten.map (fun v => |v - t|)).indexOf 0] = t := by
    have hgot := List.getElem_indexOf hidxlt
    rw [List.getElem_map] at hgot
    exact sub_eq_zero.mp (abs_eq_zero.mp hgot)
  simp only [findExtrema, hstage, hargmin, Option.map_some']
  rw [getD_flatten_rect psi _ hw hrect _ hidx2,
    List.getD_eq_getElem _ _ hidx2, hval]

/-! Claim theorems for the extremum locator. -/

/-- C5: with mult = +1 and unrestricted bounds (min_lat = -90, max_lat = 90,
min_depth = 0, all depths negative) findExtrema returns the global maximum
of psi, and with mult = -1 the global minimum: the restricted reduction
computes mult * max(mult * psi) over the filtered subset. -/
theorem findExtrema_unrestricted (y z psi : List (List ℚ))
    (hy : ∀ v ∈ y.flatten, -90 ≤ v ∧ v ≤ 90)
    (hz : ∀ v ∈ z.flatten, v < 0)
    (hylen : y.flatten.length = psi.flatten.length)
    (hzlen : z.flatten.length = psi.flatten.length)
    (hrect : ∀ r ∈ psi, r.length = (psi.headD []).length)
    (hne : psi.flatten ≠ []) :
    (findExtrema y z psi (-90) 90 0 1).map (fun p => p.2.2) = psi.flatten.max?
    ∧ (findExtrema y z psi (-90) 90 0 (-1)).map (fun p => p.2.2) = psi.flatten.min? := by
  have hfv := filteredVals_unrestricted y z psi hy hz hylen hzlen
  constructor
  · cases hmax : psi.flatten.max? with
    | none => exact absurd (List.max?_eq_none_iff.mp hmax) hne
    | some M =>
      have hMmem : M ∈ psi.flatten := (max?_spec hmax).1
      have hstage : stageOneExtremum y z psi (-90) 90 0 1 = some M := by
        rw [stageOneExtremum, hfv]
        have hmap : psi.flatten.map (fun v => (1 : ℚ) * v) = psi.flatten := by simp
        rw [hmap, hmax, Option.map_some', one_mul]
      exact findExtrema_value_of_mem y z psi (-90) 90 0 1 M hrect hstage hMmem
  · cases hmin : psi.flatten.min? with
    | none => exact absurd (List.min?_eq_none_iff.mp hmin) hne
    | some m =>
      have hmmem : m ∈ psi.flatten := (min?_spec hmin).1
      have hstage : stageOneExtremum y z psi (-90) 90 0 (-1) = some m := by
        rw [stageOneExtremum, hfv]
        have hmap : psi.flatten.map (fun v => (-1 : ℚ) * v) =
            psi.flatten.map (fun v => -v) := by simp [neg_one_mul]
        rw [hmap, max?_map_neg, hmin, Option.map_some', Option.map_some', neg_one_mul, neg_neg]
      exact findExtrema_value_of_mem y z psi (-90) 90 0 (-1) m hrect hstage hmmem

/-- Witness for C5 at a concrete 2x2 grid. -/
theorem findExtrema_unrestricted_witness :
    (findExtrema [[0, 0], [50, 50]] [[-1, -1], [-1, -1]] [[9, 0], [1, 9]] (-90) 90 0 1).map
        (fun p => p.2.2) = ([[(9 : ℚ), 0], [1, 9]].flatten).max?
    ∧ (findExtrema [[0, 0], [50, 50]] [[-1, -1], [-1, -1]] [[9, 0], [1, 9]] (-90) 90 0 (-1)).map
        (fun p => p.2.2) = ([[(9 : ℚ), 0], [1, 9]].flatten).min? :=
  findExtrema_unrestricted [[0, 0], [50, 50]] [[-1, -1], [-1, -1]] [[9, 0], [1, 9]]
    (by decide) (by decide) (by decide) (by decide) (by decide) (by decide)

/-- C6: the grid location findExtrema reports, and whose psi value it
returns, comes from a second pass over the full unrestricted array: it is
the row-major unravelling of the first flat index whose absolute
difference from the stage-one extremum value is minimal, a minimum over
the whole array (also when that index lies outside the filtered region). -/
theorem findExtrema_second_pass (y z psi : List (List ℚ))
    (minLat maxLat minDepth mult : ℚ)
    (hrect : ∀ r ∈ psi, r.length = (psi.headD []).length)
    (psiMax : ℚ)
    (hstage : stageOneExtremum y z psi minLat maxLat minDepth mult = some psiMax)
    (hne : psi.flatten ≠ []) :
    ∃ idx, idx < psi.flatten.length ∧
      findExtrema y z psi minLat maxLat minDepth mult =
        some (idx / (psi.headD []).length, idx % (psi.headD []).length,
          psi.flatten.getD idx 0) ∧
      (∀ m, m < psi.flatten.length →
        |psi.flatten.getD idx 0 - psiMax| ≤ |psi.flatten.getD m 0 - psiMax|) ∧
      ∀ m, m < idx → |psi.flatten.getD idx 0 - psiMax| < |psi.flatten.getD m 0 - psiMax| := by
  have hw : 0 < (psi.headD []).length := width_pos_of_flatten_ne_nil psi hrect hne
  cases habs : (psi.flatten.map (fun v => |v - psiMax|)).min? with
  | none =>
    rw [List.min?_eq_none_iff, List.map_eq_nil_iff] at habs
    exact absurd habs hne
  | some m0 =>
    rcases min?_spec habs with ⟨hm0mem, hm0le⟩
    have hidxlt : (psi.flatten.map (fun v => |v - psiMax|)).indexOf m0 <
        (psi.flatten.map (fun v => |v - psiMax|)).length :=
      List.indexOf_lt_length.mpr hm0mem
    have hidx2 : (psi.flatten.map (fun v => |v - psiMax|)).indexOf m0 <
        psi.flatten.length := by
      rw [List.length_map] at hidxlt
      exact hidxlt
    have hargmin : argmin (psi.flatten.map (fun v => |v - psiMax|)) =
        some ((psi.flatten.map (fun v => |v - psiMax|)).indexOf m0) := by
      rw [argmin, habs, Option.map_some']
    have hvalm0 : |psi.flatten[(psi.flatten.map
        (fun v => |v - psiMax|)).indexOf m0] - psiMax| = m0 := by
      have hgot := List.getElem_indexOf hidxlt
      rwa [List.getElem_map] at hgot
    refine ⟨(psi.flatten.map (fun v => |v - psiMax|)).indexOf m0, hidx2, ?_, ?_, ?_⟩
    · simp only [findExtrema, hstage, hargmin]
      rw [getD_flatten_rect psi _ hw hrect _ hidx2]
    · intro m hm
      rw [List.getD_eq_getElem _ _ hidx2, List.getD_eq_getElem _ _ hm, hvalm0]
      have : |psi.flatten[m] - psiMax| ∈ psi.flatten.map (fun v => |v - psiMax|) := by
        refine List.mem_map.mpr ⟨psi.flatten[m], List.getElem_mem hm, rfl⟩
      exact hm0le _ this
    · intro m hm
      have hmlen : m < psi.flatten.length := lt_trans hm hidx2
      rw [List.getD_eq_getElem _ _ hidx2, List.getD_eq_getElem _ _ hmlen, hvalm0]
      have hmem : |psi.flatten[m] - psiMax| ∈
          psi.flatten.map (fun v => |v - psiMax|) :=
        List.mem_map.mpr ⟨psi.flatten[m], List.getElem_mem hmlen, rfl⟩
      have hle := hm0le _ hmem
      have hmlen2 : m < (psi.flatten.map (fun v => |v - psiMax|)).length := by
        rw [List.length_map]
        exact hmlen
      have hne' : (psi.flatten.map (fun v => |v - psiMax|))[m] ≠ m0 :=
        getElem_ne_of_lt_indexOf hm hmlen2
      rw [List.getElem_map] at hne'
      exact lt_of_le_of_ne hle (fun h => hne' h.symm)

/-- Witness for C6 at a concrete input whose reported location (0,0) lies
outside the filtered region (rows with latitude at least 40): the in-region
extremum 9 recurs at flat index 0, and the first row-major index wins. -/
theorem findExtrema_second_pass_witness :
    (∃ idx, idx < ([[(9 : ℚ), 0], [1, 9]].flatten).length ∧
      findExtrema [[0, 0], [50, 50]] [[-1, -1], [-1, -1]] [[9, 0], [1, 9]] 40 90 0 1 =
        some (idx / ([[(9 : ℚ), 0], [1, 9]].headD []).length,
          idx % ([[(9 : ℚ), 0], [1, 9]].headD []).length,
          ([[(9 : ℚ), 0], [1, 9]].flatten).getD idx 0) ∧
      (∀ m, m < ([[(9 : ℚ), 0], [1, 9]].flatten).length →
        |([[(9 : ℚ), 0], [1, 9]].flatten).getD idx 0 - 9| ≤
          |([[(9 : ℚ), 0], [1, 9]].flatten).getD m 0 - 9|) ∧
      ∀ m, m < idx →
        |([[(9 : ℚ), 0], [1, 9]].flatten).getD idx 0 - 9| <
          |([[(9 : ℚ), 0], [1, 9]].flatten).getD m 0 - 9|) :=
  findExtrema_second_pass [[0, 0], [50, 50]] [[-1, -1], [-1, -1]] [[9, 0], [1, 9]] 40 90 0 1
    (by decide) 9
    (by norm_num [stageOneExtremum, filteredVals, List.filter_cons, max_def])
    (by decide)

/-! Helper lemmas for the statistics reducers. -/

theorem foldl_add_map_fin (qs : List ℚ) : ∀ a : ℚ,
    (qs.map FVal.fin).foldl FVal.add (FVal.fin a) = FVal.fin (a + qs.sum) := by
  induction qs with
  | nil => intro a; simp
  | cons q t ih =>
    intro a
    simp only [List.map_cons, List.foldl_cons, List.sum_cons]
    show (t.map FVal.fin).foldl FVal.add (FVal.fin (a + q)) = FVal.fin (a + (q + t.sum))
    rw [ih (a + q), add_assoc]

theorem fsum_map_fin (qs : List ℚ) : fsum (qs.map FVal.fin) = FVal.fin qs.sum := by
  rw [fsum, foldl_add_map_fin qs 0, zero_add]

theorem zipWith_mul_map_fin (das ws : List ℚ) :
    List.zipWith FVal.mul (das.map FVal.fin) (ws.map FVal.fin) =
      (List.zipWith (fun a b => a * b) das ws).map FVal.fin := by
  rw [List.zipWith_map, List.map_zipWith]
  rfl

theorem sum_zero_of_nonneg (ws : List ℚ) (hnn : ∀ q ∈ ws, 0 ≤ q) (h0 : ws.sum = 0) :
    ∀ q ∈ ws, q = 0 := by
  induction ws with
  | nil => intro q hq; simp at hq
  | cons w t ih =>
    have hw : 0 ≤ w := hnn w (List.mem_cons_self w t)
    have ht : 0 ≤ t.sum := List.sum_nonneg (fun x hx => hnn x (List.mem_cons_of_mem w hx))
    rw [List.sum_cons] at h0
    have hw0 : w = 0 := by linarith
    have ht0 : t.sum = 0 := by linarith
    intro q hq
    rcases List.mem_cons.mp hq with rfl | hq'
    · exact hw0
    · exact ih (fun x hx => hnn x (List.mem_cons_of_mem w hx)) ht0 q hq'

theorem zipWith_mul_sum_zero (das : List ℚ) : ∀ ws : List ℚ, (∀ q ∈ ws, q = 0) →
    (List.zipWith (fun a b => a * b) das ws).sum = 0 := by
  induction das with
  | nil => intro ws h; simp
  | cons d t ih =>
    intro ws h
    cases ws with
    | nil => simp
    | cons w u =>
      rw [List.zipWith_cons_cons, List.sum_cons,
        h w (List.mem_cons_self w u), mul_zero, zero_add]
      exact ih u (fun q hq => h q (List.mem_cons_of_mem w hq))

theorem dropNan_cons (v : FVal) (l : List FVal) :
    dropNan (v :: l) = if v = FVal.nan then dropNan l else v :: dropNan l := by
  by_cases hv : v = FVal.nan <;> simp [dropNan, List.filter_cons, hv]

theorem dropNan_xwhere (da : List FVal) : ∀ cond : List Bool,
    dropNan (xwhere da cond) =
      dropNan ((da.zip cond).filterMap (fun p => if p.2 then some p.1 else none)) := by
  induction da with
  | nil => intro cond; rfl
  | cons v t ih =>
    intro cond
    cases cond with
    | nil => rfl
    | cons c cs =>
      cases c with
      | true =>
        have hx : xwhere (v :: t) (true :: cs) = v :: xwhere t cs := by
          simp [xwhere]
        have hz : ((v :: t).zip (true :: cs)).filterMap
            (fun p => if p.2 then some p.1 else none) =
            v :: (t.zip cs).filterMap (fun p => if p.2 then some p.1 else none) := by
          simp [List.zip_cons_cons, List.filterMap_cons]
        rw [hx, hz, dropNan_cons, dropNan_cons, ih cs]
      | false =>
        have hx : xwhere (v :: t) (false :: cs) = FVal.nan :: xwhere t cs := by
          simp [xwhere]
        have hz : ((v :: t).zip (false :: cs)).filterMap
            (fun p => if p.2 then some p.1 else none) =
            (t.zip cs).filterMap (fun p => if p.2 then some p.1 else none) := by
          simp [List.zip_cons_cons, List.filterMap_cons]
        rw [hx, hz, dropNan_cons, if_pos rfl, ih cs]

/-! Claim theorems for the statistics reducers. -/

/-- C7: the weighted mean returned by mean_da equals
sum(field*weights, dims) / sum(weights, dims) (mean_da is total, so no
exception can be raised), and when the total weight of a group of
non-negative weights is zero and the field is finite, the result is NaN
(0/0 under IEEE semantics). -/
theorem mean_da_weighted_formula_and_nan (das ws : List ℚ)
    (hlen : das.length = ws.length) (hnn : ∀ q ∈ ws, 0 ≤ q) :
    mean_da (das.map FVal.fin) (some (ws.map FVal.fin)) none =
      FVal.div (fsum (List.zipWith FVal.mul (das.map FVal.fin) (ws.map FVal.fin)))
        (fsum (ws.map FVal.fin))
    ∧ (fsum (ws.map FVal.fin) = FVal.fin 0 →
        mean_da (das.map FVal.fin) (some (ws.map FVal.fin)) none = FVal.nan) := by
  constructor
  · rfl
  · intro h0
    rw [fsum_map_fin] at h0
    have hsum0 : ws.sum = 0 := by
      injection h0
    have hznn := sum_zero_of_nonneg ws hnn hsum0
    show FVal.div (fsum (List.zipWith FVal.mul (das.map FVal.fin) (ws.map FVal.fin)))
        (fsum (ws.map FVal.fin)) = FVal.nan
    rw [zipWith_mul_map_fin, fsum_map_fin, fsum_map_fin,
      zipWith_mul_sum_zero das ws hznn, hsum0]
    simp [FVal.div]

/-- Witness for C7 with field [1, 2] and all-zero weights. -/
theorem mean_da_weighted_formula_and_nan_witness :
    mean_da ([(1 : ℚ), 2].map FVal.fin) (some ([(0 : ℚ), 0].map FVal.fin)) none =
      FVal.div
        (fsum (List.zipWith FVal.mul ([(1 : ℚ), 2].map FVal.fin) ([(0 : ℚ), 0].map FVal.fin)))
        (fsum ([(0 : ℚ), 0].map FVal.fin))
    ∧ mean_da ([(1 : ℚ), 2].map FVal.fin) (some ([(0 : ℚ), 0].map FVal.fin)) none = FVal.nan :=
  ⟨(mean_da_weighted_formula_and_nan [1, 2] [0, 0] (by decide) (by decide)).1,
   (mean_da_weighted_formula_and_nan [1, 2] [0, 0] (by decide) (by decide)).2
     (by rw [fsum_map_fin]; norm_num)⟩

/-- C8 counterexample: with field [1, 2] and the region mask [0, 1] the
per-region min reported by myStats_da is 2 while the global min of the
field is 1; with mask [1, 0] the per-region max is 1 while the global max
is 2.  The per-region min/max are therefore not the global extrema. -/
theorem myStats_region_minmax_counterexample :
    myStats_da_region_min [FVal.fin 1, FVal.fin 2] [0, 1] = FVal.fin 2
    ∧ min_da [FVal.fin 1, FVal.fin 2] = FVal.fin 1
    ∧ myStats_da_region_min [FVal.fin 1, FVal.fin 2] [0, 1] ≠ min_da [FVal.fin 1, FVal.fin 2]
    ∧ myStats_da_region_max [FVal.fin 1, FVal.fin 2] [1, 0] = FVal.fin 1
    ∧ max_da [FVal.fin 1, FVal.fin 2] = FVal.fin 2
    ∧ myStats_da_region_max [FVal.fin 1, FVal.fin 2] [1, 0] ≠ max_da [FVal.fin 1, FVal.fin 2] := by
  refine ⟨?_, ?_, ?_, ?_, ?_, ?_⟩ <;> decide

/-- C8 amended: in myStats_da's regional branch the min and max are plain
unweighted reductions of the region-masked field da.where(region == 1), so
for every region they equal the min and max over the cells inside that
region (NaNs skipped), not the global unpartitioned extrema. -/
theorem myStats_region_minmax (da : List FVal) (mask : List ℚ) :
    myStats_da_region_min da mask =
      xmin ((da.zip (mask.map (fun m => decide (m = 1)))).filterMap
        (fun p => if p.2 then some p.1 else none))
    ∧ myStats_da_region_max da mask =
      xmax ((da.zip (mask.map (fun m => decide (m = 1)))).filterMap
        (fun p => if p.2 then some p.1 else none)) := by
  constructor
  · show xmin (xwhere da (mask.map (fun m => decide (m = 1)))) = _
    unfold xmin
    rw [dropNan_xwhere]
  · show xmax (xwhere da (mask.map (fun m => decide (m = 1)))) = _
    unfold xmax
    rw [dropNan_xwhere]

/-- C9 counterexample: with dims = ("yh", "xh") and an array whose
dimensions are ["xh", "time"], check_dims raises, but the error message is
the fixed string naming the position dims[0]; it does not contain the
missing axis name "yh". -/
theorem check_dims_message_counterexample :
    check_dims [r"xh", r"time"] ((r"yh"), (r"xh")) =
      Except.error (r"DataArray does not have dimensions given by dims[0]")
    ∧ containsChars (r"yh").toList
        (r"DataArray does not have dimensions given by dims[0]").toList = false :=
  ⟨rfl, by decide⟩

/-- C9 amended: check_dims raises exactly when dims[0] or dims[1] is
absent from the array dimensions; the raised error identifies which dims
position is missing, via one of two fixed strings, but does not name the
missing axis itself. -/
theorem check_dims_spec (daDims : List String) (dims : String × String) :
    ((∃ e, check_dims daDims dims = Except.error e) ↔
      (dims.1 ∉ daDims ∨ dims.2 ∉ daDims))
    ∧ (dims.1 ∉ daDims →
        check_dims daDims dims =
          Except.error (r"DataArray does not have dimensions given by dims[0]"))
    ∧ (dims.1 ∈ daDims → dims.2 ∉ daDims →
        check_dims daDims dims =
          Except.error (r"DataArray does not have dimensions given by dims[1]")) := by
  unfold check_dims
  by_cases h1 : dims.1 ∈ daDims <;> by_cases h2 : dims.2 ∈ daDims <;> simp [h1, h2]

/-- Witness for C9's amended claim at a concrete missing first axis. -/
theorem check_dims_spec_witness :
    check_dims [r"xh", r"time"] ((r"yh"), (r"xh")) =
      Except.error (r"DataArray does not have dimensions given by dims[0]") :=
  (check_dims_spec [r"xh", r"time"] ((r"yh"), (r"xh"))).2.1 (by decide)

/-- C10 counterexample: a region-partitioned call with rank-2 (y × x)
weights and a correctly labeled rank-3 basins collection is claimed to
proceed past validation without error; both HorizontalMeanRmse_da and
HorizontalMeanDiff_da instead raise, because they accept only rank
exactly 3. -/
theorem horizontal_check_rank2_counterexample :
    HorizontalMeanRmse_da_check [r"time", r"z_l", r"yh", r"xh"] ((r"yh"), (r"xh"))
        2 [r"region"] 3 =
      Except.error (r"If basins is provided, weights must be a 3D array.")
    ∧ HorizontalMeanDiff_da_check [r"time", r"z_l", r"yh", r"xh"] ((r"yh"), (r"xh"))
        2 [r"region"] 3 =
      Except.error (r"If basins is provided, weights must be a 3D array.") :=
  ⟨rfl, rfl⟩

/-- C10 amended: in a region-partitioned call with weights, and with the
var dimensions already validated, the two wrappers pass validation iff the
basins collection carries the "region" coordinate and both the weights and
the basins arrays have rank exactly 3 (rank 2 weights are rejected); the
two wrappers perform identical validation. -/
theorem horizontal_check_spec (varDims : List String) (dims : String × String)
    (weightsRank : Nat) (basinsCoords : List String) (basinsRank : Nat)
    (hdims : check_dims varDims dims = Except.ok ()) :
    (HorizontalMeanRmse_da_check varDims dims weightsRank basinsCoords basinsRank =
        Except.ok ()
      ↔ ((r"region") ∈ basinsCoords ∧ weightsRank = 3 ∧ basinsRank = 3))
    ∧ HorizontalMeanRmse_da_check varDims dims weightsRank basinsCoords basinsRank =
        HorizontalMeanDiff_da_check varDims dims weightsRank basinsCoords basinsRank := by
  unfold HorizontalMeanRmse_da_check HorizontalMeanDiff_da_check
  rw [hdims]
  constructor
  · by_cases hr : (r"region") ∈ basinsCoords <;> by_cases hw : weightsRank = 3 <;>
      by_cases hb : basinsRank = 3 <;> simp [hr, hw, hb]
  · rfl

/-- Witness for C10's amended claim: rank-3 weights and labeled rank-3
basins pass validation. -/
theorem horizontal_check_spec_witness :
    HorizontalMeanRmse_da_check [r"z_l", r"yh", r"xh"] ((r"yh"), (r"xh")) 3 [r"region"] 3 =
      Except.ok () :=
  (horizontal_check_spec [r"z_l", r"yh", r"xh"] ((r"yh"), (r"xh")) 3 [r"region"] 3 rfl).1.mpr
    ⟨by decide, rfl, rfl⟩

end Mom6Tools
